import Mathlib

/-!
Verification of the vault-vars-generator configuration core: the schema
validator (`config.File.Validate`) and the branch resolver
(`validate.TargetForBranch`), shallowly embedded from the Go source.
Strings are Lean `String`s; Go's `strings.TrimSpace` is modelled by
`trimSpace` below (ASCII whitespace); Go's `fmt.Sprintf` with `%q` is
modelled by `goQuote` (plain quoting, exact for names without escapes).
-/

set_option maxRecDepth 4000

namespace Config

/-- Models Go `strings.TrimSpace`: drop leading and trailing whitespace. -/
def trimSpace (s : String) : String :=
  String.mk (((s.toList.dropWhile Char.isWhitespace).reverse.dropWhile Char.isWhitespace).reverse)

/-- Models Go `strings.HasPrefix`. -/
def strStarts (s p : String) : Bool :=
  s.toList.take p.toList.length == p.toList

/-- Models Go `strings.TrimPrefix` under a `strStarts` guard: drop the leading piece. -/
def strDropPre (s p : String) : String :=
  String.mk (s.toList.drop p.toList.length)

/-- Models the `%q` verb of `fmt.Sprintf` for strings that need no escaping. -/
def goQuote (s : String) : String := "\"" ++ s ++ "\""

/-- `config.Target`: the fields required to locate the secret in Vault.
`NamespaceAlias` is the field read from the legacy misspelled YAML key. -/
structure Target where
  AccountID : String
  Namespace : String
  NamespaceAlias : String
deriving Repr, DecidableEq

/-- `Target.Normalize`: fold the legacy alias field into `Namespace` when
`Namespace` is empty (exact emptiness, no trimming). -/
def Target.Normalize (t : Target) : Target :=
  if t.Namespace = "" then ⟨t.AccountID, t.NamespaceAlias, t.NamespaceAlias⟩ else t

/-- `config.TargetWrapper`: parity with the YAML layout nesting under `vault`. -/
structure TargetWrapper where
  Vault : Target
deriving Repr, DecidableEq

/-- `config.BranchOverride`: a per-branch override of the default target.
`VaultEnabled` is the tri-state `*bool` (`none` = absent). -/
structure BranchOverride where
  Name : String
  Vault : Target
  VaultEnabled : Option Bool
deriving Repr, DecidableEq

/-- `config.Secret`: a single secret lookup definition. -/
structure Secret where
  Name : String
  Default : TargetWrapper
  BranchOverrides : List BranchOverride
deriving Repr, DecidableEq

/-- `config.File`: the root of the configuration file. -/
structure File where
  VaultSecrets : List Secret
deriving Repr, DecidableEq

/-- `Secret.Normalize`: normalise the default target and every override target. -/
def Secret.Normalize (s : Secret) : Secret :=
  ⟨s.Name, ⟨s.Default.Vault.Normalize⟩,
    s.BranchOverrides.map (fun o => ⟨o.Name, o.Vault.Normalize, o.VaultEnabled⟩)⟩

/-- `File.Normalize`: normalise every secret. -/
def File.Normalize (f : File) : File :=
  ⟨f.VaultSecrets.map Secret.Normalize⟩

/-- `config.targetDefined`: at least one of the two fields is non-empty after trimming. -/
def targetDefined (t : Target) : Bool :=
  trimSpace t.AccountID != "" || trimSpace t.Namespace != ""

/-- `config.targetsEqual`: equal trimmed `account_id` and equal trimmed `namespace`. -/
def targetsEqual (a b : Target) : Bool :=
  trimSpace a.AccountID == trimSpace b.AccountID && trimSpace a.Namespace == trimSpace b.Namespace

/-- `config.validateTarget`: `none` on success, `some msg` with the Go error text. -/
def validateTarget (t : Target) (context : String) : Option String :=
  if trimSpace t.AccountID = "" ∧ trimSpace t.Namespace = "" then
    some (context ++ ": missing account_id and namespace")
  else
    let issues :=
      (if trimSpace t.AccountID = "" then ["account_id is required"] else []) ++
      (if trimSpace t.Namespace = "" then ["namespace is required"] else [])
    if issues = [] then none
    else some (context ++ ": " ++ String.intercalate ", " issues)

/-- Effective `vault_enabled`: `enabled := true; if o.VaultEnabled != nil ...`
as written at both the validation and the resolution site. -/
def effectiveEnabled : Option Bool → Bool
  | some b => b
  | none => true

/-- Issue text of `Validate` for a secret with an empty (trimmed) name. -/
def missingNameIssue (i : Nat) : String :=
  "secret at index " ++ toString i ++ " is missing a name"

/-- Issue text of `Validate` for a repeated secret name. -/
def duplicateSecretIssue (name : String) : String :=
  "duplicate secret name " ++ goQuote name

/-- `validateTarget` context string for a secret's default target. -/
def defaultContext (sName : String) : String :=
  "secret " ++ goQuote sName ++ " default"

/-- Issue text of `Validate` for a secret with no default target and no overrides. -/
def needDefaultOrOverrideIssue (sName : String) : String :=
  "secret " ++ goQuote sName ++ " must define a default target or at least one branch override"

/-- Issue text of `Validate` for an override with an empty (trimmed) name. -/
def overrideMissingNameIssue (sName : String) (j : Nat) : String :=
  "secret " ++ goQuote sName ++ " override at index " ++ toString j ++ " missing name"

/-- Issue text of `Validate` for a repeated override name within one secret. -/
def duplicateOverrideIssue (sName oName : String) : String :=
  "secret " ++ goQuote sName ++ " has duplicate override for branch " ++ goQuote oName

/-- Issue text of `Validate` for a disabled override that still defines a target. -/
def disabledButDefinedIssue (sName oName : String) : String :=
  "secret " ++ goQuote sName ++ " override " ++ goQuote oName ++
    " disables vault but defines a vault target"

/-- Issue text of `Validate` for an enabled override without a defined target. -/
def mustDefineTargetIssue (sName oName : String) : String :=
  "secret " ++ goQuote sName ++ " override " ++ goQuote oName ++
    " must define a vault target when vault is enabled"

/-- `validateTarget` context string for an override's target. -/
def overrideContext (sName oName : String) : String :=
  "secret " ++ goQuote sName ++ " override " ++ goQuote oName

/-- Issue text of `Validate` for an enabled override equal to the default target. -/
def matchesDefaultIssue (sName oName : String) : String :=
  "secret " ++ goQuote sName ++ " override " ++ goQuote oName ++
    " must not match the default vault target"

/-- `config.ValidationError`: groups schema validation issues. -/
structure ValidationError where
  Issues : List String
deriving Repr, DecidableEq

/-- The `error` values the config package can produce; `Validate` only ever
produces the `validation` constructor (a `*ValidationError`). -/
inductive GoError where
  | validation (err : ValidationError)
  | other (msg : String)
deriving Repr, DecidableEq

/-- `ValidationError.Is`: true exactly when the checked error is a `*ValidationError`,
independent of the receiver and of the issue text. -/
def ValidationError.Is (_ : ValidationError) : GoError → Bool
  | GoError.validation _ => true
  | GoError.other _ => false

/-- The name-related issues emitted for one override (missing name, or duplicate
name given the names already seen in this secret). -/
def overrideNameIssues (sName : String) (names : List String) (j : Nat)
    (o : BranchOverride) : List String :=
  if trimSpace o.Name = "" then [overrideMissingNameIssue sName j]
  else if names.contains o.Name then [duplicateOverrideIssue sName o.Name]
  else []

/-- The enabled/target issues emitted for one override, mirroring the branch
structure (including the `continue`s) of the loop body in `File.Validate`. -/
def overrideBodyIssues (sName : String) (hasDefault : Bool) (defVault : Target)
    (o : BranchOverride) : List String :=
  if effectiveEnabled o.VaultEnabled = false then
    (if targetDefined o.Vault then [disabledButDefinedIssue sName o.Name] else [])
  else if targetDefined o.Vault = false then [mustDefineTargetIssue sName o.Name]
  else
    (match validateTarget o.Vault (overrideContext sName o.Name) with
      | some e => [e]
      | none => []) ++
    (if hasDefault && targetsEqual o.Vault defVault then [matchesDefaultIssue sName o.Name]
     else [])

/-- `overrideNames[o.Name] = struct\x7b\x7d` is performed only when the override
name is non-empty after trimming. -/
def updateOverrideNames (names : List String) (o : BranchOverride) : List String :=
  if trimSpace o.Name = "" then names else o.Name :: names

/-- The inner loop of `File.Validate` over a secret's overrides, threading the
accumulated issues, the set of seen override names and the index. -/
def overridesLoop (sName : String) (hasDefault : Bool) (defVault : Target) :
    List String → List String → Nat → List BranchOverride → List String
  | issues, _, _, [] => issues
  | issues, names, j, o :: rest =>
      overridesLoop sName hasDefault defVault
        (issues ++ overrideNameIssues sName names j o ++
          overrideBodyIssues sName hasDefault defVault o)
        (updateOverrideNames names o) (j + 1) rest

/-- The name-related issues emitted for one secret (missing name, or duplicate
name given the names already seen in the document). -/
def secretNameIssues (seen : List String) (i : Nat) (s : Secret) : List String :=
  if trimSpace s.Name = "" then [missingNameIssue i]
  else if seen.contains s.Name then [duplicateSecretIssue s.Name]
  else []

/-- The default-target issues emitted for one secret: validity of a defined
default, and the default-or-override requirement. -/
def secretDefaultIssues (s : Secret) : List String :=
  (if targetDefined s.Default.Vault then
    (match validateTarget s.Default.Vault (defaultContext s.Name) with
      | some e => [e]
      | none => [])
   else []) ++
  (if targetDefined s.Default.Vault = false ∧ s.BranchOverrides = [] then
    [needDefaultOrOverrideIssue s.Name]
   else [])

/-- `seenNames[s.Name]` is incremented only when the secret name is non-empty
after trimming. -/
def updateSeen (seen : List String) (s : Secret) : List String :=
  if trimSpace s.Name = "" then seen else s.Name :: seen

/-- The outer loop of `File.Validate` over the document's secrets, threading the
accumulated issues, the seen secret names and the index. -/
def secretsLoop : List String → List String → Nat → List Secret → List String
  | issues, _, _, [] => issues
  | issues, seen, i, s :: rest =>
      secretsLoop
        (overridesLoop s.Name (targetDefined s.Default.Vault) s.Default.Vault
          (issues ++ secretNameIssues seen i s ++ secretDefaultIssues s)
          [] 0 s.BranchOverrides)
        (updateSeen seen s) (i + 1) rest

/-- `File.Validate`: `none` on acceptance, otherwise a `*ValidationError`
wrapping the accumulated issue list. -/
def File.Validate (f : File) : Option GoError :=
  if f.VaultSecrets = [] then
    some (GoError.validation ⟨["no vault_secrets entries defined"]⟩)
  else if secretsLoop [] [] 0 f.VaultSecrets = [] then none
  else some (GoError.validation ⟨secretsLoop [] [] 0 f.VaultSecrets⟩)

/-- Spec-side restatement: the issues of one secret's overrides as the
concatenation of each override's own issues, in declared order. -/
def overrideIssues (sName : String) (hasDefault : Bool) (defVault : Target) :
    List String → Nat → List BranchOverride → List String
  | _, _, [] => []
  | names, j, o :: rest =>
      overrideNameIssues sName names j o ++
        overrideBodyIssues sName hasDefault defVault o ++
        overrideIssues sName hasDefault defVault (updateOverrideNames names o) (j + 1) rest

/-- Spec-side restatement: all issues of one secret, in emission order. -/
def secretIssues (seen : List String) (i : Nat) (s : Secret) : List String :=
  secretNameIssues seen i s ++ secretDefaultIssues s ++
    overrideIssues s.Name (targetDefined s.Default.Vault) s.Default.Vault [] 0
      s.BranchOverrides

/-- Spec-side restatement: the issues of the whole document as the concatenation
of each secret's own issues, in declared order. -/
def allSecretIssues : List String → Nat → List Secret → List String
  | _, _, [] => []
  | seen, i, s :: rest =>
      secretIssues seen i s ++ allSecretIssues (updateSeen seen s) (i + 1) rest

end Config

namespace Validate

open Config

/-- `validate.branchCandidates`: the ordered candidate list for a branch name,
built exactly as the Go appends do. -/
def branchCandidates (branch : String) : List String :=
  let branch := trimSpace branch
  if branch = "" then []
  else
    let candidates := [branch]
    let candidates :=
      if strStarts branch "refs/heads/" then candidates ++ [strDropPre branch "refs/heads/"]
      else candidates
    let candidates :=
      if strStarts branch "origin/" then candidates ++ [strDropPre branch "origin/"]
      else candidates
    candidates

/-- The body of the matched-override case of `TargetForBranch`, factored out:
disabled, or both raw fields empty, means no fetch; otherwise fetch the
override's target. -/
def resolveOverride (o : BranchOverride) : Target × Bool :=
  if effectiveEnabled o.VaultEnabled = false then (⟨"", "", ""⟩, false)
  else if o.Vault.AccountID = "" ∧ o.Vault.Namespace = "" then (⟨"", "", ""⟩, false)
  else (o.Vault, true)

/-- The inner loop of `TargetForBranch`: scan the overrides in declared order
and return at the first one whose name equals the candidate. -/
def scanOverrides : List BranchOverride → String → Option (Target × Bool)
  | [], _ => none
  | o :: rest, c => if o.Name == c then some (resolveOverride o) else scanOverrides rest c

/-- The outer loop of `TargetForBranch`: try the candidates in list order and
return the first candidate's result that matched any override. -/
def scanCandidates (overrides : List BranchOverride) : List String → Option (Target × Bool)
  | [] => none
  | c :: cs =>
      match scanOverrides overrides c with
      | some r => some r
      | none => scanCandidates overrides cs

/-- `validate.TargetForBranch`: resolve the Vault target for a branch, falling
back to the secret's default target when no override matches. -/
def TargetForBranch (secret : Secret) (branch : String) : Target × Bool :=
  match scanCandidates secret.BranchOverrides (branchCandidates branch) with
  | some r => r
  | none =>
      if secret.Default.Vault.AccountID = "" ∧ secret.Default.Vault.Namespace = "" then
        (⟨"", "", ""⟩, false)
      else (secret.Default.Vault, true)

/-- Spec-side restatement: the first override whose name equals the candidate. -/
def findOverride : List BranchOverride → String → Option BranchOverride
  | [], _ => none
  | o :: rest, c => if o.Name == c then some o else findOverride rest c

/-- Spec-side restatement: the override matched by the first candidate, in list
order, that matches any override. -/
def matchedOverride (overrides : List BranchOverride) : List String → Option BranchOverride
  | [] => none
  | c :: cs =>
      match findOverride overrides c with
      | some o => some o
      | none => matchedOverride overrides cs

/-- Spec-side restatement of the candidate list, following the claim wording:
the trimmed branch itself, then the `refs/heads/`-stripped form when that
piece leads, then the `origin/`-stripped form when that piece leads. -/
def candidatesSpec (branch : String) : List String :=
  let b := trimSpace branch
  if b = "" then []
  else
    [b] ++ (if strStarts b "refs/heads/" then [strDropPre b "refs/heads/"] else []) ++
      (if strStarts b "origin/" then [strDropPre b "origin/"] else [])

end Validate

open Config Validate

/-- The inner resolver loop is the first name match, mapped through the
matched-case body. -/
theorem scanOverrides_eq_find (c : String) :
    ∀ l : List BranchOverride, scanOverrides l c = (findOverride l c).map resolveOverride := by
  intro l
  induction l with
  | nil => rfl
  | cons o rest ih =>
      simp only [scanOverrides, findOverride]
      cases h : (o.Name == c) <;> simp [h, ih]

/-- The outer resolver loop is the first candidate's match, mapped through the
matched-case body. -/
theorem scanCandidates_eq_matched (overrides : List BranchOverride) :
    ∀ cs : List String,
      scanCandidates overrides cs = (matchedOverride overrides cs).map resolveOverride := by
  intro cs
  induction cs with
  | nil => rfl
  | cons c cs ih =>
      simp only [scanCandidates, matchedOverride, scanOverrides_eq_find]
      cases findOverride overrides c <;> simp [ih]

/-- `TargetForBranch` factored through the first matched override. -/
theorem TargetForBranch_eq_matched (s : Secret) (b : String) :
    TargetForBranch s b =
      (match matchedOverride s.BranchOverrides (branchCandidates b) with
       | some o => resolveOverride o
       | none =>
           if s.Default.Vault.AccountID = "" ∧ s.Default.Vault.Namespace = "" then
             ((⟨"", "", ""⟩ : Target), false)
           else (s.Default.Vault, true)) := by
  unfold TargetForBranch
  rw [scanCandidates_eq_matched]
  cases matchedOverride s.BranchOverrides (branchCandidates b) <;> simp

/-- The override loop of `Validate` only ever appends: it equals the initial
issues followed by the concatenation of each override's own issues. -/
theorem overridesLoop_eq_concat (sName : String) (hd : Bool) (dv : Target) :
    ∀ (l : List BranchOverride) (issues names : List String) (j : Nat),
      overridesLoop sName hd dv issues names j l =
        issues ++ overrideIssues sName hd dv names j l := by
  intro l
  induction l with
  | nil => intro issues names j; simp [overridesLoop, overrideIssues]
  | cons o rest ih =>
      intro issues names j
      simp [overridesLoop, overrideIssues, ih, List.append_assoc]

/-- The secret loop of `Validate` only ever appends: it equals the initial
issues followed by the concatenation of each secret's own issues. -/
theorem secretsLoop_eq_concat :
    ∀ (l : List Secret) (issues seen : List String) (i : Nat),
      secretsLoop issues seen i l = issues ++ allSecretIssues seen i l := by
  intro l
  induction l with
  | nil => intro issues seen i; simp [secretsLoop, allSecretIssues]
  | cons s rest ih =>
      intro issues seen i
      simp [secretsLoop, allSecretIssues, ih, overridesLoop_eq_concat, secretIssues,
        List.append_assoc]

/-- `Validate` on a document with at least one secret, phrased through the
concatenated per-secret issues. -/
theorem validate_eq_issues (f : File) (h : f.VaultSecrets ≠ []) :
    f.Validate =
      (if allSecretIssues [] 0 f.VaultSecrets = [] then none
       else some (GoError.validation ⟨allSecretIssues [] 0 f.VaultSecrets⟩)) := by
  unfold File.Validate
  rw [if_neg h, secretsLoop_eq_concat]
  simp

/-- An issue of some override of some listed secret appears in the full
concatenated issue list. -/
theorem mem_overrideIssues_of_body (sName : String) (hd : Bool) (dv : Target) (x : String)
    (o : BranchOverride) (hx : x ∈ overrideBodyIssues sName hd dv o) :
    ∀ (l : List BranchOverride) (names : List String) (j : Nat),
      o ∈ l → x ∈ overrideIssues sName hd dv names j l := by
  intro l
  induction l with
  | nil => intro names j h; cases h
  | cons a rest ih =>
      intro names j h
      rcases List.mem_cons.mp h with rfl | hmem
      · simp [overrideIssues, List.mem_append, hx]
      · simp only [overrideIssues, List.mem_append]
        exact Or.inr (ih _ _ hmem)

/-- An issue of some override of a secret appears in that secret's issues. -/
theorem mem_secretIssues_of_override (x : String) (s : Secret) (seen : List String) (i : Nat)
    (hx : x ∈ overrideIssues s.Name (targetDefined s.Default.Vault) s.Default.Vault [] 0
      s.BranchOverrides) :
    x ∈ secretIssues seen i s := by
  simp [secretIssues, List.mem_append, hx]

/-- An issue of a listed secret appears in the document's concatenated issues. -/
theorem mem_allSecretIssues (x : String) (s : Secret)
    (hx : ∀ seen i, x ∈ secretIssues seen i s) :
    ∀ (l : List Secret) (seen : List String) (i : Nat), s ∈ l →
      x ∈ allSecretIssues seen i l := by
  intro l
  induction l with
  | nil => intro seen i h; cases h
  | cons a rest ih =>
      intro seen i h
      rcases List.mem_cons.mp h with rfl | hmem
      · simp [allSecretIssues, List.mem_append, hx seen i]
      · simp only [allSecretIssues, List.mem_append]
        exact Or.inr (ih _ _ hmem)

/-- When some issue is present, `Validate` fails with the full issue list. -/
theorem validate_fails_of_mem (f : File) (x : String)
    (hx : x ∈ allSecretIssues [] 0 f.VaultSecrets) (h : f.VaultSecrets ≠ []) :
    f.Validate = some (GoError.validation ⟨allSecretIssues [] 0 f.VaultSecrets⟩) := by
  rw [validate_eq_issues f h, if_neg (List.ne_nil_of_mem hx)]

/-- A target trim-equal to a defined target is itself defined. -/
theorem targetDefined_of_targetsEqual (a b : Target) (h : targetsEqual a b = true)
    (hb : targetDefined b = true) : targetDefined a = true := by
  simp only [targetsEqual, Bool.and_eq_true, beq_iff_eq] at h
  simp only [targetDefined, Bool.or_eq_true, bne_iff_ne, ne_eq] at hb ⊢
  rcases hb with hb | hb
  · exact Or.inl (h.1 ▸ hb)
  · exact Or.inr (h.2 ▸ hb)

/-- `Target.Normalize` is idempotent. -/
theorem targetNormalize_idem (t : Target) : t.Normalize.Normalize = t.Normalize := by
  unfold Target.Normalize
  by_cases h : t.Namespace = "" <;> simp [h]

/-- `Secret.Normalize` is idempotent. -/
theorem secretNormalize_idem (s : Secret) : s.Normalize.Normalize = s.Normalize := by
  unfold Secret.Normalize
  simp only [List.map_map, Secret.mk.injEq, TargetWrapper.mk.injEq, true_and]
  refine ⟨targetNormalize_idem _, ?_⟩
  apply List.map_congr_left
  intro o _
  simp [Function.comp, targetNormalize_idem]

/-- `File.Normalize` is idempotent. -/
theorem fileNormalize_idem (f : File) : f.Normalize.Normalize = f.Normalize := by
  unfold File.Normalize
  simp only [List.map_map, File.mk.injEq]
  apply List.map_congr_left
  intro s _
  simp [Function.comp, secretNormalize_idem]

/-- Claim C1: for every document, `Validate` returns either acceptance or a
non-empty ordered issue list equal to the concatenation, over every secret in
declared order, of that secret's own issues (which themselves concatenate
every override's issues) — the validator never returns after only the first
violation; the sole exception is a document with zero secrets, which yields
the single document-level issue. -/
theorem validate_reports_every_issue (f : File) :
    (f.VaultSecrets = [] →
      f.Validate = some (GoError.validation ⟨["no vault_secrets entries defined"]⟩)) ∧
    (f.VaultSecrets ≠ [] →
      (f.Validate = none ∧ allSecretIssues [] 0 f.VaultSecrets = []) ∨
      (∃ issues, issues ≠ [] ∧ issues = allSecretIssues [] 0 f.VaultSecrets ∧
        f.Validate = some (GoError.validation ⟨issues⟩))) := by
  constructor
  · intro h
    unfold File.Validate
    rw [if_pos h]
  · intro h
    by_cases hi : allSecretIssues [] 0 f.VaultSecrets = []
    · exact Or.inl ⟨by rw [validate_eq_issues f h, if_pos hi], hi⟩
    · exact Or.inr ⟨_, hi, rfl, by rw [validate_eq_issues f h, if_neg hi]⟩

/-- Witness for C1 at the empty document. -/
theorem validate_reports_every_issue_w :
    (File.mk []).Validate = some (GoError.validation ⟨["no vault_secrets entries defined"]⟩) :=
  (validate_reports_every_issue ⟨[]⟩).1 rfl

/-- Claim C3: the candidate list is built from the trimmed branch in order
(the branch itself, then with "refs/heads/" stripped when that piece leads,
then with "origin/" stripped when that piece leads); candidates are tried in list
order against the overrides in declared order and the first candidate that
yields any match decides the result; in particular branch "refs/heads/release"
matches an override named "release" when none is named "refs/heads/release". -/
theorem branch_candidates_first_match (b : String) (s : Secret) :
    branchCandidates b = candidatesSpec b ∧
    TargetForBranch s b =
      (match matchedOverride s.BranchOverrides (branchCandidates b) with
       | some o => resolveOverride o
       | none =>
           if s.Default.Vault.AccountID = "" ∧ s.Default.Vault.Namespace = "" then
             ((⟨"", "", ""⟩ : Target), false)
           else (s.Default.Vault, true)) ∧
    TargetForBranch ⟨"x", ⟨⟨"A1", "N1", ""⟩⟩, [⟨"release", ⟨"A2", "N2", ""⟩, none⟩]⟩
        "refs/heads/release" = (⟨"A2", "N2", ""⟩, true) := by
  refine ⟨?_, TargetForBranch_eq_matched s b, by decide⟩
  unfold branchCandidates candidatesSpec
  by_cases h1 : trimSpace b = ""
  · simp [h1]
  · by_cases h2 : strStarts (trimSpace b) "refs/heads/" <;>
      by_cases h3 : strStarts (trimSpace b) "origin/" <;> simp [h1, h2, h3]

/-- Claim C2 is refuted at this input: the matched override is effectively
enabled and its target is not defined under the trimmed predicate (both
fields trim to the empty string), yet `TargetForBranch` does not return
(empty Target, false); it returns the whitespace-only target with
shouldFetch=true, because the code compares the raw fields against ""
without trimming. -/
theorem resolver_trimmed_definedness_cex :
    matchedOverride [⟨"dev", ⟨" ", "", ""⟩, none⟩] (branchCandidates "dev") =
      some ⟨"dev", ⟨" ", "", ""⟩, none⟩ ∧
    effectiveEnabled (none : Option Bool) = true ∧
    trimSpace " " = "" ∧ trimSpace "" = "" ∧
    TargetForBranch ⟨"x", ⟨⟨"", "", ""⟩⟩, [⟨"dev", ⟨" ", "", ""⟩, none⟩]⟩ "dev" ≠
      ((⟨"", "", ""⟩ : Target), false) ∧
    TargetForBranch ⟨"x", ⟨⟨"", "", ""⟩⟩, [⟨"dev", ⟨" ", "", ""⟩, none⟩]⟩ "dev" =
      ((⟨" ", "", ""⟩ : Target), true) := by
  decide

/-- Claim C2 (amended): when `TargetForBranch` finds a matching override, it
returns (empty Target, shouldFetch=false) if the override's effective
vault_enabled (absent means true) is false, or if both account_id and
namespace of the override's target are exactly the empty string (raw
comparison, no whitespace trimming); otherwise it returns (the override's
target, shouldFetch=true). -/
theorem resolver_override_result (s : Secret) (b : String) (o : BranchOverride)
    (h : matchedOverride s.BranchOverrides (branchCandidates b) = some o) :
    TargetForBranch s b =
      (if effectiveEnabled o.VaultEnabled = false then ((⟨"", "", ""⟩ : Target), false)
       else if o.Vault.AccountID = "" ∧ o.Vault.Namespace = "" then
         ((⟨"", "", ""⟩ : Target), false)
       else (o.Vault, true)) := by
  rw [TargetForBranch_eq_matched, h]
  rfl

/-- Witness for the amended C2 at concrete scenario C of the spec. -/
theorem resolver_override_result_w :
    TargetForBranch ⟨"x", ⟨⟨"A1", "N1", ""⟩⟩, [⟨"qa", ⟨"A2", "N2", ""⟩, none⟩]⟩ "origin/qa" =
      (⟨"A2", "N2", ""⟩, true) :=
  (resolver_override_result ⟨"x", ⟨⟨"A1", "N1", ""⟩⟩, [⟨"qa", ⟨"A2", "N2", ""⟩, none⟩]⟩
    "origin/qa" ⟨"qa", ⟨"A2", "N2", ""⟩, none⟩ (by decide)).trans (by decide)

/-- Claim C4 is refuted at this input: with no overrides and branch "", the
resolver falls back to the default target ⟨" ", ""⟩, which is not defined
under the trimmed predicate, yet the result is (that target, true) rather
than (empty Target, false): the fallback compares the raw fields against ""
without trimming. -/
theorem resolver_default_trimmed_cex :
    matchedOverride ([] : List BranchOverride) (branchCandidates "") = none ∧
    trimSpace " " = "" ∧
    TargetForBranch ⟨"x", ⟨⟨" ", "", ""⟩⟩, []⟩ "" ≠ ((⟨"", "", ""⟩ : Target), false) ∧
    TargetForBranch ⟨"x", ⟨⟨" ", "", ""⟩⟩, []⟩ "" = ((⟨" ", "", ""⟩ : Target), true) := by
  decide

/-- Claim C4 (amended): when the branch is empty after trimming no override
can match, and when no override matches any candidate `TargetForBranch`
falls back to the secret's default target: if both of its account_id and
namespace are exactly the empty string (raw comparison, no trimming) the
result is (empty Target, false), otherwise (the default target, true); in
particular a secret with default A1/N1 and no overrides resolves branch ""
to (A1/N1, true). -/
theorem resolver_default_fallback (s : Secret) (b : String) :
    (trimSpace b = "" → branchCandidates b = [] ∧
      matchedOverride s.BranchOverrides (branchCandidates b) = none) ∧
    (matchedOverride s.BranchOverrides (branchCandidates b) = none →
      TargetForBranch s b =
        (if s.Default.Vault.AccountID = "" ∧ s.Default.Vault.Namespace = "" then
          ((⟨"", "", ""⟩ : Target), false)
         else (s.Default.Vault, true))) := by
  constructor
  · intro h
    have hc : branchCandidates b = [] := by unfold branchCandidates; simp [h]
    exact ⟨hc, by rw [hc]; rfl⟩
  · intro h
    rw [TargetForBranch_eq_matched, h]

/-- Witness for the amended C4 at concrete scenario A of the spec. -/
theorem resolver_default_fallback_w :
    TargetForBranch ⟨"x", ⟨⟨"A1", "N1", ""⟩⟩, []⟩ "" = (⟨"A1", "N1", ""⟩, true) :=
  ((resolver_default_fallback ⟨"x", ⟨⟨"A1", "N1", ""⟩⟩, []⟩ "").2 rfl).trans (by decide)

/-- Claim C5: a document containing an override whose vault_enabled is
explicitly false and whose target is defined fails validation, and the
issue list contains the issue naming both the owning secret and that
override. -/
theorem disabled_override_with_target_fails (f : File) (s : Secret) (o : BranchOverride)
    (hs : s ∈ f.VaultSecrets) (ho : o ∈ s.BranchOverrides)
    (hdis : o.VaultEnabled = some false) (hdef : targetDefined o.Vault = true) :
    ∃ issues, f.Validate = some (GoError.validation ⟨issues⟩) ∧
      disabledButDefinedIssue s.Name o.Name ∈ issues := by
  have hbody : disabledButDefinedIssue s.Name o.Name ∈
      overrideBodyIssues s.Name (targetDefined s.Default.Vault) s.Default.Vault o := by
    unfold overrideBodyIssues
    rw [hdis]
    simp [effectiveEnabled, hdef]
  have hx : disabledButDefinedIssue s.Name o.Name ∈ allSecretIssues [] 0 f.VaultSecrets :=
    mem_allSecretIssues _ s
      (fun seen i => mem_secretIssues_of_override _ s seen i
        (mem_overrideIssues_of_body _ _ _ _ o hbody _ _ _ ho))
      _ _ _ hs
  exact ⟨_, validate_fails_of_mem f _ hx (List.ne_nil_of_mem hs), hx⟩

/-- Witness for C5 at concrete scenario D of the spec. -/
theorem disabled_override_with_target_fails_w :
    ∃ issues,
      (File.mk [⟨"x", ⟨⟨"A1", "N1", ""⟩⟩, [⟨"dev", ⟨"A9", "N9", ""⟩, some false⟩]⟩]).Validate =
        some (GoError.validation ⟨issues⟩) ∧
      disabledButDefinedIssue "x" "dev" ∈ issues :=
  disabled_override_with_target_fails
    ⟨[⟨"x", ⟨⟨"A1", "N1", ""⟩⟩, [⟨"dev", ⟨"A9", "N9", ""⟩, some false⟩]⟩]⟩
    ⟨"x", ⟨⟨"A1", "N1", ""⟩⟩, [⟨"dev", ⟨"A9", "N9", ""⟩, some false⟩]⟩
    ⟨"dev", ⟨"A9", "N9", ""⟩, some false⟩ (by simp) (by simp) rfl (by decide)

/-- Claim C6: a document containing a secret with a defined default target and
an effectively enabled override whose target is structurally equal (trimmed
fields) to that default fails validation with the issue for that override. -/
theorem override_equal_default_fails (f : File) (s : Secret) (o : BranchOverride)
    (hs : s ∈ f.VaultSecrets) (ho : o ∈ s.BranchOverrides)
    (hd : targetDefined s.Default.Vault = true)
    (hen : o.VaultEnabled ≠ some false)
    (heq : targetsEqual o.Vault s.Default.Vault = true) :
    ∃ issues, f.Validate = some (GoError.validation ⟨issues⟩) ∧
      matchesDefaultIssue s.Name o.Name ∈ issues := by
  have hena : effectiveEnabled o.VaultEnabled = true := by
    cases h : o.VaultEnabled with
    | none => rfl
    | some b =>
        cases b with
        | true => rfl
        | false => exact absurd h hen
  have hod : targetDefined o.Vault = true := targetDefined_of_targetsEqual _ _ heq hd
  have hbody : matchesDefaultIssue s.Name o.Name ∈
      overrideBodyIssues s.Name (targetDefined s.Default.Vault) s.Default.Vault o := by
    unfold overrideBodyIssues
    rw [hena]
    simp [hod, hd, heq, List.mem_append]
  have hx : matchesDefaultIssue s.Name o.Name ∈ allSecretIssues [] 0 f.VaultSecrets :=
    mem_allSecretIssues _ s
      (fun seen i => mem_secretIssues_of_override _ s seen i
        (mem_overrideIssues_of_body _ _ _ _ o hbody _ _ _ ho))
      _ _ _ hs
  exact ⟨_, validate_fails_of_mem f _ hx (List.ne_nil_of_mem hs), hx⟩

/-- Witness for C6: an override duplicating the default A1/N1 target. -/
theorem override_equal_default_fails_w :
    ∃ issues,
      (File.mk [⟨"x", ⟨⟨"A1", "N1", ""⟩⟩, [⟨"dev", ⟨"A1", "N1", ""⟩, none⟩]⟩]).Validate =
        some (GoError.validation ⟨issues⟩) ∧
      matchesDefaultIssue "x" "dev" ∈ issues :=
  override_equal_default_fails
    ⟨[⟨"x", ⟨⟨"A1", "N1", ""⟩⟩, [⟨"dev", ⟨"A1", "N1", ""⟩, none⟩]⟩]⟩
    ⟨"x", ⟨⟨"A1", "N1", ""⟩⟩, [⟨"dev", ⟨"A1", "N1", ""⟩, none⟩]⟩
    ⟨"dev", ⟨"A1", "N1", ""⟩, none⟩ (by simp) (by simp) (by decide) (by decide) (by decide)

/-- Claim C7: every validation failure is the single typed error value
`ValidationError` wrapping a non-empty ordered issue list, and the kind check
`ValidationError.Is` recognises it for any receiver, independent of the issue
text. -/
theorem validation_failure_is_typed (f : File) (e : GoError) (h : f.Validate = some e) :
    (∃ issues, issues ≠ [] ∧ e = GoError.validation ⟨issues⟩) ∧
    ValidationError.Is ⟨[]⟩ e = true := by
  unfold File.Validate at h
  by_cases h0 : f.VaultSecrets = []
  · rw [if_pos h0] at h
    have he := Option.some.inj h
    subst he
    exact ⟨⟨_, by simp, rfl⟩, rfl⟩
  · rw [if_neg h0] at h
    by_cases hi : secretsLoop [] [] 0 f.VaultSecrets = []
    · rw [if_pos hi] at h
      exact absurd h (by simp)
    · rw [if_neg hi] at h
      have he := Option.some.inj h
      subst he
      exact ⟨⟨_, hi, rfl⟩, rfl⟩

/-- Witness for C7 at the empty document. -/
theorem validation_failure_is_typed_w :
    (∃ issues, issues ≠ [] ∧
      GoError.validation ⟨["no vault_secrets entries defined"]⟩ =
        GoError.validation ⟨issues⟩) ∧
    ValidationError.Is ⟨[]⟩ (GoError.validation ⟨["no vault_secrets entries defined"]⟩) =
      true :=
  validation_failure_is_typed ⟨[]⟩ _ rfl

/-- Claim C8: validation is idempotent on accepted documents — if the
normalized document validates with acceptance, running the
normalize-then-validate pipeline again on it yields acceptance. -/
theorem validate_idempotent_on_accepted (f : File) (h : f.Normalize.Validate = none) :
    f.Normalize.Normalize.Validate = none := by
  rw [fileNormalize_idem]
  exact h

/-- Witness for C8 at a one-secret accepted document. -/
theorem validate_idempotent_on_accepted_w :
    (File.mk [⟨"x", ⟨⟨"A1", "N1", ""⟩⟩, []⟩]).Normalize.Normalize.Validate = none :=
  validate_idempotent_on_accepted ⟨[⟨"x", ⟨⟨"A1", "N1", ""⟩⟩, []⟩]⟩ (by decide)

/-- The matched-override case of the resolver pairs shouldFetch=false only
with the zero target. -/
theorem resolveOverride_no_fetch (o : BranchOverride) (t : Target)
    (h : resolveOverride o = (t, false)) : t = ⟨"", "", ""⟩ := by
  unfold resolveOverride at h
  split at h
  · exact (Prod.mk.injEq .. ▸ h).1.symm
  · split at h
    · exact (Prod.mk.injEq .. ▸ h).1.symm
    · exact absurd (Prod.mk.injEq .. ▸ h).2 (by decide)

/-- Claim C9: whenever `TargetForBranch` returns shouldFetch=false, the
returned target is exactly the zero target (all three fields empty); it never
pairs false with a populated target. -/
theorem no_fetch_returns_zero_target (s : Secret) (b : String) (t : Target)
    (h : TargetForBranch s b = (t, false)) : t = ⟨"", "", ""⟩ := by
  have heq := TargetForBranch_eq_matched s b
  cases hm : matchedOverride s.BranchOverrides (branchCandidates b) with
  | none =>
      rw [hm] at heq
      have h' : (if s.Default.Vault.AccountID = "" ∧ s.Default.Vault.Namespace = "" then
          ((⟨"", "", ""⟩ : Target), false)
        else (s.Default.Vault, true)) = (t, false) := heq.symm.trans h
      split at h'
      · exact (Prod.mk.injEq .. ▸ h').1.symm
      · exact absurd (Prod.mk.injEq .. ▸ h').2 (by decide)
  | some o =>
      rw [hm] at heq
      exact resolveOverride_no_fetch o t (heq.symm.trans h)

/-- Witness for C9 at concrete scenario B of the spec. -/
theorem no_fetch_returns_zero_target_w : (⟨"", "", ""⟩ : Target) = ⟨"", "", ""⟩ :=
  no_fetch_returns_zero_target ⟨"x", ⟨⟨"A1", "N1", ""⟩⟩, [⟨"dev", ⟨"", "", ""⟩, some false⟩]⟩
    "dev" ⟨"", "", ""⟩ (by decide)

/-- Claim C10: `Target.Normalize` modifies only the namespace field — it
copies the legacy alias into the namespace exactly when the namespace is the
empty string (no whitespace trimming: a whitespace-only namespace is not
folded), leaves the account id and the alias unchanged in every case, and is
idempotent. -/
theorem normalize_only_folds_alias (t : Target) :
    t.Normalize.AccountID = t.AccountID ∧
    t.Normalize.NamespaceAlias = t.NamespaceAlias ∧
    t.Normalize.Namespace = (if t.Namespace = "" then t.NamespaceAlias else t.Namespace) ∧
    t.Normalize.Normalize = t.Normalize ∧
    (Target.mk "A" " " "B").Normalize = Target.mk "A" " " "B" := by
  refine ⟨?_, ?_, ?_, targetNormalize_idem t, by decide⟩ <;>
    (unfold Target.Normalize; by_cases h : t.Namespace = "" <;> simp [h])
